import Mathlib

/-!
# Verification of the `mayheap` crate

A shallow embedding of the `mayheap` library (src/lib.rs, src/vec.rs,
src/string.rs, src/error.rs, src/boxed.rs) in Lean 4.

The crate compiles in one of two mutually exclusive modes:

* fixed-capacity mode (`heapless` feature, `#[cfg(not(feature = "alloc"))]`
  branches) — containers wrap `heapless::Vec<T, N>` / `heapless::String<N>`,
  embedded below in namespace `Mayheap.HL`;
* heap-backed mode (`alloc` feature, `#[cfg(feature = "alloc")]` branches) —
  containers wrap `alloc::vec::Vec<T>` / `alloc::string::String`, embedded
  below in namespace `Mayheap.AL`.

Containers are modeled by their element sequence (a `List`): the wrapper in
`vec.rs` / `string.rs` delegates each operation to the inner container, so the
embedding of an operation is the composition of the wrapper branch with the
documented sequence semantics of the inner (`heapless` resp. `alloc`) call it
delegates to.  Mutation is modeled by state passing: a Rust method
`fn f(&mut self, ..) -> R` becomes a Lean function returning `R × Vec`.
A Rust panic is modeled as `Option.none` (a defined abort, distinct from both
success and a returned error value).
-/

namespace Mayheap

/-- Embedding of `core::str::Utf8Error`, carried by `Error::Utf8Error` (src/error.rs) and
returned by `String::from_utf8` (src/string.rs line 45).  Modeled by its
`valid_up_to` field: the length of the longest valid prefix. -/
structure Utf8Error where
  valid_up_to : Nat
deriving DecidableEq, Repr

/-- The `Error` enum of src/error.rs. -/
inductive Error where
  /-- Attempted to grow a collection beyond its capacity (heapless mode only). -/
  | BufferOverflow : Error
  /-- Invalid UTF-8 sequence, carrying the underlying decoding error. -/
  | Utf8Error (e : Utf8Error) : Error
deriving DecidableEq, Repr

/-! ## UTF-8 validation and decoding

Embedding of `core::str::run_utf8_validation`, which both
`alloc::string::String::from_utf8` and `heapless::String::from_utf8` delegate
to.  Bytes are `Nat` values below 256; characters are Unicode scalar values as
`Nat`. -/

/-- A UTF-8 continuation byte: `0x80 <= b <= 0xBF`. -/
def utf8IsCont (b : Nat) : Bool := 0x80 ≤ b && b ≤ 0xBF

/-- Number of bytes of a UTF-8 sequence headed by `b` (core's `UTF8_CHAR_WIDTH`
table); `0` means `b` cannot head a sequence. -/
def utf8Width (b : Nat) : Nat :=
  if b < 0x80 then 1
  else if 0xC2 ≤ b && b ≤ 0xDF then 2
  else if 0xE0 ≤ b && b ≤ 0xEF then 3
  else if 0xF0 ≤ b && b ≤ 0xF4 then 4
  else 0

/-- Valid range of the second byte given lead byte `b` (the special cases of
`run_utf8_validation`: 0xE0, 0xED, 0xF0, 0xF4 restrict the second byte). -/
def utf8SecondOk (b c : Nat) : Bool :=
  if b = 0xE0 then 0xA0 ≤ c && c ≤ 0xBF
  else if b = 0xED then 0x80 ≤ c && c ≤ 0x9F
  else if b = 0xF0 then 0x90 ≤ c && c ≤ 0xBF
  else if b = 0xF4 then 0x80 ≤ c && c ≤ 0x8F
  else utf8IsCont c

/-- One pass of `core::str::run_utf8_validation`, recursing on a fuel bound
so the recursion is structural (each character consumes at least one byte, so
a fuel equal to the input length always suffices; fuel exhaustion on a
non-empty input cannot occur and is mapped to an error). -/
def utf8ValidateAux : Nat → Nat → List Nat → Except Utf8Error Unit
  | _, _, [] => .ok ()
  | 0, i, _ :: _ => .error ⟨i⟩
  | fuel + 1, i, b :: rest =>
    if utf8Width b = 1 then utf8ValidateAux fuel (i + 1) rest
    else if utf8Width b = 2 then
      match rest with
      | c :: rest2 =>
        if utf8SecondOk b c then utf8ValidateAux fuel (i + 2) rest2
        else .error ⟨i⟩
      | [] => .error ⟨i⟩
    else if utf8Width b = 3 then
      match rest with
      | c :: d :: rest3 =>
        if utf8SecondOk b c && utf8IsCont d then utf8ValidateAux fuel (i + 3) rest3
        else .error ⟨i⟩
      | _ => .error ⟨i⟩
    else if utf8Width b = 4 then
      match rest with
      | c :: d :: e :: rest4 =>
        if utf8SecondOk b c && utf8IsCont d && utf8IsCont e then
          utf8ValidateAux fuel (i + 4) rest4
        else .error ⟨i⟩
      | _ => .error ⟨i⟩
    else .error ⟨i⟩

/-- Embedding of `core::str::run_utf8_validation` from offset `i`: succeeds on well-formed
UTF-8, otherwise reports the offset of the first byte of the first invalid
sequence (its `valid_up_to`). -/
def utf8ValidateFrom (i : Nat) (l : List Nat) : Except Utf8Error Unit :=
  utf8ValidateAux l.length i l

/-- Decode the first UTF-8 sequence of a byte list: the scalar value and the
number of bytes consumed.  `none` when the list is empty or starts with an
invalid sequence. -/
def utf8DecodeFirst : List Nat → Option (Nat × Nat)
  | [] => none
  | b :: rest =>
    if utf8Width b = 1 then some (b, 1)
    else if utf8Width b = 2 then
      match rest with
      | c :: _ =>
        if utf8SecondOk b c then some ((b - 0xC0) * 0x40 + (c - 0x80), 2) else none
      | [] => none
    else if utf8Width b = 3 then
      match rest with
      | c :: d :: _ =>
        if utf8SecondOk b c && utf8IsCont d then
          some ((b - 0xE0) * 0x1000 + (c - 0x80) * 0x40 + (d - 0x80), 3)
        else none
      | _ => none
    else if utf8Width b = 4 then
      match rest with
      | c :: d :: e :: _ =>
        if utf8SecondOk b c && utf8IsCont d && utf8IsCont e then
          some ((b - 0xF0) * 0x40000 + (c - 0x80) * 0x1000 + (d - 0x80) * 0x40
                  + (e - 0x80), 4)
        else none
      | _ => none
    else none

/-- Embedding of `char::len_utf8` for a Unicode scalar value. -/
def utf8Len (c : Nat) : Nat :=
  if c < 0x80 then 1 else if c < 0x800 then 2 else if c < 0x10000 then 3 else 4

/-- Embedding of `char::encode_utf8` for a Unicode scalar value. -/
def utf8Encode (c : Nat) : List Nat :=
  if c < 0x80 then [c]
  else if c < 0x800 then [0xC0 + c / 0x40, 0x80 + c % 0x40]
  else if c < 0x10000 then
    [0xE0 + c / 0x1000, 0x80 + c / 0x40 % 0x40, 0x80 + c % 0x40]
  else
    [0xF0 + c / 0x40000, 0x80 + c / 0x1000 % 0x40, 0x80 + c / 0x40 % 0x40,
     0x80 + c % 0x40]

end Mayheap

namespace Mayheap.HL

/-! ## Fixed-capacity (heapless) mode

Embedding of the `#[cfg(not(feature = "alloc"))]` branches of src/vec.rs and
src/string.rs, composed with the sequence semantics of `heapless::Vec<T, N>` /
`heapless::String<N>` that those branches delegate to.  The inner type keeps a
hard capacity of `N` elements and its fallible operations either leave the
container unchanged and return an error, or succeed. -/

/-- Embedding of `mayheap::Vec<T, N>` in heapless mode: a wrapper around
`heapless::Vec<T, N>`, modeled by its element sequence (length at most `N`,
established as an invariant rather than carried in the type). -/
structure Vec (T : Type) (N : Nat) where
  data : List T
deriving DecidableEq, Repr

/-- Embedding of `Vec::new` (src/vec.rs line 29): the empty vector. -/
def Vec.new (T : Type) (N : Nat) : Vec T N := ⟨[]⟩

/-- Embedding of `Vec::as_slice` (src/vec.rs line 62): the whole element sequence.  `Deref`,
iteration, hashing and the comparison impls of src/vec.rs are all functions of
this slice. -/
def Vec.as_slice (v : Vec T N) : List T := v.data

/-- Embedding of `Vec::push` (src/vec.rs line 142, heapless branch): delegates to
`heapless::Vec::push`, which appends when `len < N` and otherwise returns the
item back as `Err(item)` leaving the vector unchanged. -/
def Vec.push (v : Vec T N) (item : T) : Except T Unit × Vec T N :=
  if v.data.length < N then (.ok (), ⟨v.data ++ [item]⟩) else (.error item, v)

/-- Embedding of `Vec::extend_from_slice` (src/vec.rs line 116, heapless branch): delegates
to `heapless::Vec::extend_from_slice`, which copies all of `other` when it
fits and otherwise errs leaving the vector unchanged; the wrapper maps the
error to `Error::BufferOverflow`. -/
def Vec.extend_from_slice (v : Vec T N) (other : List T) :
    Except Error Unit × Vec T N :=
  if v.data.length + other.length ≤ N then (.ok (), ⟨v.data ++ other⟩)
  else (.error .BufferOverflow, v)

/-- Embedding of `Vec::from_slice` (src/vec.rs line 38): `new` followed by
`extend_from_slice`, propagating its error. -/
def Vec.from_slice (T : Type) (N : Nat) (other : List T) : Except Error (Vec T N) :=
  match (Vec.new T N).extend_from_slice other with
  | (.ok (), v) => .ok v
  | (.error e, _) => .error e

/-- Embedding of `Vec::pop` (src/vec.rs line 136): removes and returns the last element,
`None` when empty. -/
def Vec.pop (v : Vec T N) : Option T × Vec T N :=
  (v.data.getLast?, ⟨v.data.dropLast⟩)

/-- Embedding of `Vec::pop_unchecked` (src/vec.rs line 161): `self.0.pop().unwrap()` — the
`unwrap` panics (modeled `none`) on an empty vector. -/
def Vec.pop_unchecked (v : Vec T N) : Option (T × Vec T N) :=
  match v.pop with
  | (some x, v2) => some (x, v2)
  | (none, _) => none

/-- Embedding of `Vec::insert` (src/vec.rs line 268, heapless branch): delegates to
`heapless::Vec::insert`, which panics (`none`) when `index > len`, returns
`Err(element)` when full, and otherwise shifts elements right. -/
def Vec.insert (v : Vec T N) (index : Nat) (element : T) :
    Option (Except T Unit × Vec T N) :=
  if index ≤ v.data.length then
    if v.data.length < N then
      some (.ok (), ⟨v.data.take index ++ element :: v.data.drop index⟩)
    else some (.error element, v)
  else none

/-- Embedding of `Vec::truncate` (src/vec.rs line 176): keeps the first `len` elements. -/
def Vec.truncate (v : Vec T N) (len : Nat) : Vec T N := ⟨v.data.take len⟩

/-- Embedding of `Vec::clear` (src/vec.rs line 98): removes all elements. -/
def Vec.clear (v : Vec T N) : Vec T N := ⟨[]⟩

/-- Embedding of `Vec::resize` (src/vec.rs line 188, heapless branch): delegates to
`heapless::Vec::resize`, which errs (mapped to `Error::BufferOverflow`) when
`new_len > N` and otherwise pads with `value` or truncates. -/
def Vec.resize (v : Vec T N) (new_len : Nat) (value : T) :
    Except Error Unit × Vec T N :=
  if new_len ≤ N then
    if v.data.length ≤ new_len then
      (.ok (), ⟨v.data ++ List.replicate (new_len - v.data.length) value⟩)
    else (.ok (), ⟨v.data.take new_len⟩)
  else (.error .BufferOverflow, v)

/-- Embedding of `Vec::remove` (src/vec.rs line 284): removes and returns the element at
`index`, shifting the rest left; panics (`none`) when out of bounds. -/
def Vec.remove (v : Vec T N) (index : Nat) : Option (T × Vec T N) :=
  match v.data.get? index with
  | some x => some (x, ⟨v.data.eraseIdx index⟩)
  | none => none

/-- Embedding of `Vec::swap_remove` (src/vec.rs line 223): swaps the element at `index`
with the last element and pops; panics (`none`) when out of bounds. -/
def Vec.swap_remove (v : Vec T N) (index : Nat) : Option (T × Vec T N) :=
  match v.data.get? index, v.data.getLast? with
  | some x, some last => some (x, ⟨(v.data.set index last).dropLast⟩)
  | _, _ => none

/-- Embedding of `Vec::swap_remove_unchecked` (src/vec.rs line 229): the body is exactly
`self.swap_remove(index)`. -/
def Vec.swap_remove_unchecked (v : Vec T N) (index : Nat) :
    Option (T × Vec T N) :=
  v.swap_remove index

/-- Embedding of `Vec::retain` (src/vec.rs line 290): keeps the elements satisfying `f`,
in order. -/
def Vec.retain (v : Vec T N) (f : T → Bool) : Vec T N := ⟨v.data.filter f⟩

/-- Indexing through `Deref` (src/vec.rs line 636): element lookup in the
slice, `none` out of bounds. -/
def Vec.get (v : Vec T N) (index : Nat) : Option T := v.data.get? index

/-- The `PartialEq` impl (src/vec.rs line 503): elementwise slice equality. -/
def Vec.eq [DecidableEq T] (v : Vec T N) (w : Vec T M) : Bool :=
  v.data = w.data

end Mayheap.HL

namespace Mayheap

/-- Lexicographic comparison of sequences, the semantics of `Ord` on Rust
slices, to which the `Ord` impls of both `heapless::Vec` and `alloc::vec::Vec`
(and both string types) delegate. -/
def lexCmp (cmp : T → T → Ordering) : List T → List T → Ordering
  | [], [] => .eq
  | [], _ :: _ => .lt
  | _ :: _, [] => .gt
  | a :: as, b :: bs =>
    match cmp a b with
    | .eq => lexCmp cmp as bs
    | o => o

end Mayheap

namespace Mayheap.AL

/-! ## Heap-backed (alloc) mode

Embedding of the `#[cfg(feature = "alloc")]` branches of src/vec.rs and
src/string.rs, composed with the sequence semantics of `alloc::vec::Vec<T>` /
`alloc::string::String`.  The parameter `N` is kept: `Vec::new` merely calls
`reserve(N)` (src/vec.rs line 32), so `N` is an initial capacity hint with no
effect on the element sequence of any operation. -/

/-- Embedding of `mayheap::Vec<T, N>` in alloc mode: a wrapper around `alloc::vec::Vec<T>`,
modeled by its element sequence (no length bound). -/
structure Vec (T : Type) (N : Nat) where
  data : List T
deriving DecidableEq, Repr

/-- Embedding of `Vec::new` (src/vec.rs line 29, alloc branch): empty, after `reserve(N)`. -/
def Vec.new (T : Type) (N : Nat) : Vec T N := ⟨[]⟩

/-- Embedding of `Vec::as_slice` (src/vec.rs line 62). -/
def Vec.as_slice (v : Vec T N) : List T := v.data

/-- Embedding of `Vec::push` (src/vec.rs line 142, alloc branch): `alloc::vec::Vec::push`
never fails; the wrapper returns `Ok(())` unconditionally. -/
def Vec.push (v : Vec T N) (item : T) : Except T Unit × Vec T N :=
  (.ok (), ⟨v.data ++ [item]⟩)

/-- Embedding of `Vec::extend_from_slice` (src/vec.rs line 116, alloc branch): appends all
of `other` and returns `Ok(())` unconditionally. -/
def Vec.extend_from_slice (v : Vec T N) (other : List T) :
    Except Error Unit × Vec T N :=
  (.ok (), ⟨v.data ++ other⟩)

/-- Embedding of `Vec::from_slice` (src/vec.rs line 38): `new` followed by
`extend_from_slice`. -/
def Vec.from_slice (T : Type) (N : Nat) (other : List T) : Except Error (Vec T N) :=
  match (Vec.new T N).extend_from_slice other with
  | (.ok (), v) => .ok v
  | (.error e, _) => .error e

/-- Embedding of `Vec::pop` (src/vec.rs line 136). -/
def Vec.pop (v : Vec T N) : Option T × Vec T N :=
  (v.data.getLast?, ⟨v.data.dropLast⟩)

/-- Embedding of `Vec::pop_unchecked` (src/vec.rs line 161): `self.0.pop().unwrap()`, the
same body in both modes; panics (`none`) on an empty vector. -/
def Vec.pop_unchecked (v : Vec T N) : Option (T × Vec T N) :=
  match v.pop with
  | (some x, v2) => some (x, v2)
  | (none, _) => none

/-- Embedding of `Vec::insert` (src/vec.rs line 268, alloc branch):
`alloc::vec::Vec::insert` panics (`none`) when `index > len`, otherwise
succeeds unconditionally. -/
def Vec.insert (v : Vec T N) (index : Nat) (element : T) :
    Option (Except T Unit × Vec T N) :=
  if index ≤ v.data.length then
    some (.ok (), ⟨v.data.take index ++ element :: v.data.drop index⟩)
  else none

/-- Embedding of `Vec::truncate` (src/vec.rs line 176). -/
def Vec.truncate (v : Vec T N) (len : Nat) : Vec T N := ⟨v.data.take len⟩

/-- Embedding of `Vec::clear` (src/vec.rs line 98). -/
def Vec.clear (v : Vec T N) : Vec T N := ⟨[]⟩

/-- Embedding of `Vec::resize` (src/vec.rs line 188, alloc branch): always `Ok(())`. -/
def Vec.resize (v : Vec T N) (new_len : Nat) (value : T) :
    Except Error Unit × Vec T N :=
  if v.data.length ≤ new_len then
    (.ok (), ⟨v.data ++ List.replicate (new_len - v.data.length) value⟩)
  else (.ok (), ⟨v.data.take new_len⟩)

/-- Embedding of `Vec::remove` (src/vec.rs line 284). -/
def Vec.remove (v : Vec T N) (index : Nat) : Option (T × Vec T N) :=
  match v.data.get? index with
  | some x => some (x, ⟨v.data.eraseIdx index⟩)
  | none => none

/-- Embedding of `Vec::swap_remove` (src/vec.rs line 223). -/
def Vec.swap_remove (v : Vec T N) (index : Nat) : Option (T × Vec T N) :=
  match v.data.get? index, v.data.getLast? with
  | some x, some last => some (x, ⟨(v.data.set index last).dropLast⟩)
  | _, _ => none

/-- Embedding of `Vec::swap_remove_unchecked` (src/vec.rs line 229): exactly
`self.swap_remove(index)`, the same body in both modes. -/
def Vec.swap_remove_unchecked (v : Vec T N) (index : Nat) :
    Option (T × Vec T N) :=
  v.swap_remove index

/-- Embedding of `Vec::retain` (src/vec.rs line 290). -/
def Vec.retain (v : Vec T N) (f : T → Bool) : Vec T N := ⟨v.data.filter f⟩

/-- Indexing through `Deref` (src/vec.rs line 636). -/
def Vec.get (v : Vec T N) (index : Nat) : Option T := v.data.get? index

/-- The `PartialEq` impl (src/vec.rs line 503). -/
def Vec.eq [DecidableEq T] (v : Vec T N) (w : Vec T M) : Bool :=
  v.data = w.data

end Mayheap.AL

namespace Mayheap

/-! ## Shared byte-level string helpers

Both `heapless::String` and `alloc::string::String` implement the char-level
operations by the same core algorithms over the UTF-8 byte buffer; these
helpers embed those algorithms once. -/

/-- Embedding of `str::is_char_boundary`: true at 0, at the length, and at any byte that is
not a continuation byte. -/
def isCharBoundary (bytes : List Nat) (k : Nat) : Bool :=
  if k = 0 then true
  else if k = bytes.length then true
  else
    match bytes.get? k with
    | some b => !utf8IsCont b
    | none => false

/-- Start offset of the last character of a UTF-8 buffer: the largest index
holding a non-continuation byte.  `none` on the empty buffer. -/
def lastCharBoundary (bytes : List Nat) : Option Nat :=
  (List.range bytes.length).reverse.find? fun k =>
    match bytes.get? k with
    | some b => !utf8IsCont b
    | none => false

/-- Embedding of `String::pop` over the byte buffer: decode the last character
(`chars().rev().next()`) and truncate it off; `none` on the empty string. -/
def strPopBytes (bytes : List Nat) : Option Nat × List Nat :=
  match lastCharBoundary bytes with
  | none => (none, bytes)
  | some k =>
    match utf8DecodeFirst (bytes.drop k) with
    | some (c, _) => (some c, bytes.take k)
    | none => (none, bytes)

/-- Embedding of `String::truncate` over the byte buffer: no effect when `new_len` exceeds
the length, a panic (`none`) when `new_len` is not a char boundary, otherwise
keeps the first `new_len` bytes. -/
def strTruncateBytes (bytes : List Nat) (new_len : Nat) : Option (List Nat) :=
  if bytes.length ≤ new_len then some bytes
  else if isCharBoundary bytes new_len then some (bytes.take new_len)
  else none

/-- Embedding of `String::remove` over the byte buffer: removes and returns the character
starting at byte `index`; panics (`none`) when `index` is out of bounds or not
a char boundary. -/
def strRemoveBytes (bytes : List Nat) (index : Nat) :
    Option (Nat × List Nat) :=
  match utf8DecodeFirst (bytes.drop index) with
  | some (c, w) => some (c, bytes.take index ++ bytes.drop (index + w))
  | none => none

end Mayheap

namespace Mayheap.HL

/-- Embedding of `mayheap::String<N>` in heapless mode: a wrapper around
`heapless::String<N>`, modeled by its UTF-8 byte sequence (the inner type is a
`heapless::Vec<u8, N>` holding valid UTF-8). -/
structure String (N : Nat) where
  bytes : List Nat
deriving DecidableEq, Repr

/-- Embedding of `String::new` (src/string.rs line 32, heapless branch). -/
def String.new (N : Nat) : String N := ⟨[]⟩

/-- Embedding of `String::from_utf8` (src/string.rs line 45, heapless branch): delegates to
`heapless::String::from_utf8`, which runs UTF-8 validation and returns the
`Utf8Error` unchanged. -/
def String.from_utf8 (v : Vec Nat N) : Except Utf8Error (String N) :=
  match utf8ValidateFrom 0 v.data with
  | .ok () => .ok ⟨v.data⟩
  | .error e => .error e

/-- Embedding of `String::as_str` (src/string.rs line 78), viewed as its byte sequence;
`Deref`, the `PartialEq`/`Ord` impls and hashing are functions of it. -/
def String.as_str (s : String N) : List Nat := s.bytes

/-- Embedding of `String::push_str` (src/string.rs line 103, heapless branch): delegates to
`heapless::String::push_str`, i.e. `vec.extend_from_slice(string.as_bytes())`:
all-or-nothing against capacity `N`, `Err(())` leaves the string unchanged. -/
def String.push_str (s : String N) (string : List Nat) :
    Except Unit Unit × String N :=
  if s.bytes.length + string.length ≤ N then (.ok (), ⟨s.bytes ++ string⟩)
  else (.error (), s)

/-- Embedding of `String::push` (src/string.rs line 125, heapless branch): delegates to
`heapless::String::push`, which appends the UTF-8 encoding of `c` when it fits
and otherwise returns `Err(())` leaving the string unchanged. -/
def String.push (s : String N) (c : Nat) : Except Unit Unit × String N :=
  if s.bytes.length + utf8Len c ≤ N then (.ok (), ⟨s.bytes ++ utf8Encode c⟩)
  else (.error (), s)

/-- Embedding of `String::truncate` (src/string.rs line 142). -/
def String.truncate (s : String N) (new_len : Nat) : Option (String N) :=
  (strTruncateBytes s.bytes new_len).map String.mk

/-- Embedding of `String::pop` (src/string.rs line 150). -/
def String.pop (s : String N) : Option Nat × String N :=
  match strPopBytes s.bytes with
  | (c, rest) => (c, ⟨rest⟩)

/-- Embedding of `String::remove` (src/string.rs line 164). -/
def String.remove (s : String N) (index : Nat) : Option (Nat × String N) :=
  (strRemoveBytes s.bytes index).map fun p => (p.1, ⟨p.2⟩)

/-- Embedding of `String::clear` (src/string.rs line 170). -/
def String.clear (s : String N) : String N := ⟨[]⟩

/-- The `PartialEq` impl (src/string.rs line 297): string slice equality,
i.e. byte sequence equality. -/
def String.eq (s : String N) (t : String M) : Bool :=
  s.bytes = t.bytes

/-- The `Ord` impl (src/string.rs line 345): lexicographic byte comparison. -/
def String.cmp (s : String N) (t : String M) : Ordering :=
  Mayheap.lexCmp compare s.bytes t.bytes

end Mayheap.HL

namespace Mayheap.AL

/-- Embedding of `mayheap::String<N>` in alloc mode: a wrapper around
`alloc::string::String` created with capacity hint `N`, modeled by its UTF-8
byte sequence (no length bound). -/
structure String (N : Nat) where
  bytes : List Nat
deriving DecidableEq, Repr

/-- Embedding of `String::new` (src/string.rs line 32, alloc branch):
`Inner::with_capacity(N)`, empty. -/
def String.new (N : Nat) : String N := ⟨[]⟩

/-- Embedding of `String::from_utf8` (src/string.rs line 45, alloc branch): delegates to
`alloc::string::String::from_utf8` and maps the `FromUtf8Error` to its
underlying `Utf8Error` via `e.utf8_error()`. -/
def String.from_utf8 (v : Vec Nat N) : Except Utf8Error (String N) :=
  match utf8ValidateFrom 0 v.data with
  | .ok () => .ok ⟨v.data⟩
  | .error e => .error e

/-- Embedding of `String::as_str` (src/string.rs line 78), viewed as its byte sequence. -/
def String.as_str (s : String N) : List Nat := s.bytes

/-- Embedding of `String::push_str` (src/string.rs line 103, alloc branch): always
`Ok(())`. -/
def String.push_str (s : String N) (string : List Nat) :
    Except Unit Unit × String N :=
  (.ok (), ⟨s.bytes ++ string⟩)

/-- Embedding of `String::push` (src/string.rs line 125, alloc branch): always `Ok(())`. -/
def String.push (s : String N) (c : Nat) : Except Unit Unit × String N :=
  (.ok (), ⟨s.bytes ++ utf8Encode c⟩)

/-- Embedding of `String::truncate` (src/string.rs line 142), the same single body in both
modes, delegating to an inner `truncate` with identical semantics. -/
def String.truncate (s : String N) (new_len : Nat) : Option (String N) :=
  (strTruncateBytes s.bytes new_len).map String.mk

/-- Embedding of `String::pop` (src/string.rs line 150). -/
def String.pop (s : String N) : Option Nat × String N :=
  match strPopBytes s.bytes with
  | (c, rest) => (c, ⟨rest⟩)

/-- Embedding of `String::remove` (src/string.rs line 164). -/
def String.remove (s : String N) (index : Nat) : Option (Nat × String N) :=
  (strRemoveBytes s.bytes index).map fun p => (p.1, ⟨p.2⟩)

/-- Embedding of `String::clear` (src/string.rs line 170). -/
def String.clear (s : String N) : String N := ⟨[]⟩

/-- The `PartialEq` impl (src/string.rs line 297). -/
def String.eq (s : String N) (t : String M) : Bool :=
  s.bytes = t.bytes

/-- The `Ord` impl (src/string.rs line 345). -/
def String.cmp (s : String N) (t : String M) : Ordering :=
  Mayheap.lexCmp compare s.bytes t.bytes

end Mayheap.AL

namespace Mayheap.HL

/-- Driver: perform a sequence of `push` calls, collecting each result. -/
def Vec.pushSeq (v : Vec T N) : List T → List (Except T Unit) × Vec T N
  | [] => ([], v)
  | x :: xs =>
    match v.push x with
    | (r, v2) =>
      match v2.pushSeq xs with
      | (rs, v3) => (r :: rs, v3)

end Mayheap.HL

namespace Mayheap.AL

/-- Driver: perform a sequence of `push` calls, collecting each result. -/
def Vec.pushSeq (v : Vec T N) : List T → List (Except T Unit) × Vec T N
  | [] => ([], v)
  | x :: xs =>
    match v.push x with
    | (r, v2) =>
      match v2.pushSeq xs with
      | (rs, v3) => (r :: rs, v3)

end Mayheap.AL

namespace Mayheap

/-- The bytes of `"hello".as_bytes()`. -/
def helloBytes : List Nat := [0x68, 0x65, 0x6C, 0x6C, 0x6F]

end Mayheap

namespace Mayheap.PoolInit

/-! ## The pool initializer state machine (heapless mode)

Embedding of `$name::init` generated by `box_pool!` (src/boxed.rs lines
136–194).  The process-wide state is the `AtomicU8` flag (`InitState` values
`Uninitialized = 0`, `Initializing = 1`, `Initialized = 2`) together with the
pool free list that `manage` registers the `N` static blocks with.  Each
concurrent (or repeated) call of `init` is one thread of the transition
system; a thread's program counter follows the `match` in `init`. -/

/-- Program counter of one call of `init`:
* `start` — about to execute the `compare_exchange`;
* `winner i` — won the CAS (`Ok(Uninitialized)` arm) and has registered
  blocks `0, …, i-1` with the pool so far;
* `spinning` — lost the CAS against `Initializing` (`Err(Initializing)` arm),
  spin-waiting on the flag;
* `done` — returned from `init`. -/
inductive TState where
  | start : TState
  | winner (registered : Nat) : TState
  | spinning : TState
  | done : TState
deriving DecidableEq, Repr

/-- Global state: the atomic flag (as the stored u8), the program counter of
every thread, and the pool free list of registered block indices. -/
structure St where
  flag : Nat
  threads : Nat → TState
  freeList : List Nat

/-- The initial state: `STATE` is `Uninitialized as u8 = 0`, no call has
started, no block is registered. -/
def startSt : St := ⟨0, fun _ => .start, []⟩

/-- Pointwise thread update. -/
def setThread (ts : Nat → TState) (t : Nat) (st : TState) : Nat → TState :=
  fun u => if u = t then st else ts u

/-- One atomic step of the initializer protocol for a pool of capacity `N`.

* `casWin` — the `compare_exchange(0, 1, AcqRel, Acquire)` succeeds;
* `casLoseSpin` — the CAS fails reading `Initializing`; the thread enters the
  spin loop;
* `casLoseDone` — the CAS fails reading `Initialized`; the thread returns;
* `register` — the winner manages the next static block (`Pool.manage`);
* `finish` — having managed all `N` blocks, the winner performs
  `STATE.store(Initialized, Release)` and returns;
* `spinDone` — a spinning thread reads `Initialized` with `Acquire` and
  returns.  (Re-reading `Initializing` leaves the state unchanged and is
  omitted as a stutter step.) -/
inductive Step (N : Nat) : St → St → Prop where
  | casWin : ∀ s t, s.threads t = .start → s.flag = 0 →
      Step N s ⟨1, setThread s.threads t (.winner 0), s.freeList⟩
  | casLoseSpin : ∀ s t, s.threads t = .start → s.flag = 1 →
      Step N s ⟨s.flag, setThread s.threads t .spinning, s.freeList⟩
  | casLoseDone : ∀ s t, s.threads t = .start → s.flag = 2 →
      Step N s ⟨s.flag, setThread s.threads t .done, s.freeList⟩
  | register : ∀ s t i, s.threads t = .winner i → i < N →
      Step N s ⟨s.flag, setThread s.threads t (.winner (i + 1)), s.freeList ++ [i]⟩
  | finish : ∀ s t, s.threads t = .winner N →
      Step N s ⟨2, setThread s.threads t .done, s.freeList⟩
  | spinDone : ∀ s t, s.threads t = .spinning → s.flag = 2 →
      Step N s ⟨s.flag, setThread s.threads t .done, s.freeList⟩

/-- States reachable from the initial state by interleaved `init` calls. -/
inductive Reachable (N : Nat) : St → Prop where
  | start : Reachable N startSt
  | step : ∀ {s s2}, Reachable N s → Step N s s2 → Reachable N s2

/-- A thread that is not the winner. -/
def NotWinner (st : TState) : Prop :=
  st = .start ∨ st = .spinning ∨ st = .done

/-- The protocol invariant, by flag value. -/
def Inv (N : Nat) (s : St) : Prop :=
  s.flag ≤ 2 ∧
  (s.flag = 0 → (∀ t, s.threads t = .start) ∧ s.freeList = []) ∧
  (s.flag = 1 → ∃ t i, s.threads t = .winner i ∧ i ≤ N ∧
      s.freeList = List.range i ∧ ∀ u, u ≠ t → NotWinner (s.threads u)) ∧
  (s.flag = 2 → s.freeList = List.range N ∧ ∀ t, NotWinner (s.threads t))

end Mayheap.PoolInit

namespace Mayheap.HLPool

/-! ## Pool allocation and handle release (heapless mode)

Embedding of `BoxPool::alloc` in heapless mode (src/boxed.rs lines 128–132)
and of handle drop, over an initialized pool.  The inner
`heapless::pool::boxed` pool keeps a stack of free blocks; `alloc` pops one or
returns `Err(value)`, dropping a `Box` pushes its block back. -/

/-- An owning handle (`mayheap::boxed::Box` wrapping
`heapless::pool::boxed::Box`): exclusive ownership of pool block `block`,
holding `value`. -/
structure Box (T : Type) where
  block : Nat
  value : T
deriving DecidableEq, Repr

/-- Pool state after initialization: the free-block stack and the blocks
currently on loan to live handles. -/
structure St (N : Nat) where
  free : List Nat
  live : List Nat
deriving DecidableEq, Repr

/-- The state right after initialization: all `N` blocks free, no handle. -/
def initSt (N : Nat) : St N := ⟨List.range N, []⟩

/-- Embedding of `BoxPool::alloc` (src/boxed.rs lines 128–132, heapless branch): take a
free block and move `value` into it, or fail returning `value` when no free
block remains. -/
def alloc (s : St N) (value : T) : Except T (Box T) × St N :=
  match s.free with
  | [] => (.error value, s)
  | b :: rest => (.ok ⟨b, value⟩, ⟨rest, b :: s.live⟩)

/-- Dropping a handle: its block returns to the pool free stack. -/
def dropBox (s : St N) (b : Nat) : St N :=
  ⟨b :: s.free, s.live.erase b⟩

/-- One pool transition: a successful allocation, a failed allocation, or a
handle drop. -/
inductive Step (N : Nat) : St N → St N → Prop where
  | allocOk : ∀ (s : St N) b rest, s.free = b :: rest →
      Step N s ⟨rest, b :: s.live⟩
  | allocFail : ∀ s : St N, s.free = [] → Step N s s
  | drop : ∀ (s : St N) b, b ∈ s.live → Step N s (dropBox s b)

/-- Pool states reachable from the freshly initialized pool. -/
inductive Reachable (N : Nat) : St N → Prop where
  | start : Reachable N (initSt N)
  | step : ∀ {s s2}, Reachable N s → Step N s s2 → Reachable N s2

end Mayheap.HLPool

namespace Mayheap.ALPool

/-! ## Pool allocation in alloc mode

Embedding of the `alloc`-feature `box_pool!` expansion (src/boxed.rs lines
85–111): `alloc` is `Ok(Box::new(alloc::boxed::Box::new(value)))`
unconditionally, a fresh heap allocation per call; the declared capacity is
consumed only by the `__dummy__` const (lines 103–109) and enforces nothing.
Heap addresses are modeled by a fresh-allocation counter. -/

/-- An owning handle (`mayheap::boxed::Box` wrapping `alloc::boxed::Box`): a
heap allocation at address `addr` holding `value`. -/
structure Box (T : Type) where
  addr : Nat
  value : T
deriving DecidableEq, Repr

/-- Global allocator/pool view: the declared (unenforced) capacity, the next
fresh heap address, and the addresses of live handles. -/
structure St where
  capacity : Nat
  next : Nat
  live : List Nat
deriving DecidableEq, Repr

/-- A pool as declared by `box_pool!(Name: ty, capacity)`: no allocation yet. -/
def declare (capacity : Nat) : St := ⟨capacity, 0, []⟩

/-- Embedding of `BoxPool::alloc` (src/boxed.rs lines 96–100, alloc branch): always
succeeds with a fresh heap allocation holding `value`. -/
def alloc (s : St) (value : T) : Except T (Box T) × St :=
  (.ok ⟨s.next, value⟩, ⟨s.capacity, s.next + 1, s.next :: s.live⟩)

/-- The derived `Clone` of `mayheap::boxed::Box` (src/boxed.rs line 60): in
alloc mode `P::BoxedValue = alloc::boxed::Box<T>` is cloneable for `T: Clone`,
so a handle can be duplicated — the inner value is cloned into a fresh heap
allocation. -/
def cloneBox (s : St) (b : Box T) : Box T × St :=
  (⟨s.next, b.value⟩, ⟨s.capacity, s.next + 1, s.next :: s.live⟩)

/-- Dropping a handle frees its heap allocation. -/
def dropBox (s : St) (b : Box T) : St :=
  ⟨s.capacity, s.next, s.live.erase b.addr⟩

end Mayheap.ALPool

namespace Mayheap

/-- A complete concrete run of `init` for a pool of capacity 1 by a single
thread: CAS win, registration of block 0, store of `Initialized`. -/
def initRunExample : PoolInit.St :=
  ⟨2, PoolInit.setThread (PoolInit.setThread (PoolInit.setThread
    (fun _ => PoolInit.TState.start) 0 (PoolInit.TState.winner 0))
    0 (PoolInit.TState.winner 1)) 0 PoolInit.TState.done, [0]⟩

end Mayheap

namespace Mayheap

/-! ## Theorems -/

theorem hlPushSeq_cons {T : Type} {N : Nat} (v : HL.Vec T N) (x : T)
    (xs : List T) :
    v.pushSeq (x :: xs)
      = ((v.push x).1 :: ((v.push x).2.pushSeq xs).1,
         ((v.push x).2.pushSeq xs).2) :=
  rfl

theorem hlPushSeq_ok {T : Type} {N : Nat} :
    ∀ (vs : List T) (v : HL.Vec T N), v.data.length + vs.length ≤ N →
      (∀ r ∈ (v.pushSeq vs).1, r = .ok ()) ∧
        (v.pushSeq vs).2.data = v.data ++ vs := by
  intro vs
  induction vs with
  | nil => intro v _; simp [HL.Vec.pushSeq]
  | cons x xs ih =>
    intro v h
    have hlt : v.data.length < N := by
      simp only [List.length_cons] at h; omega
    have hpush : v.push x = (.ok (), ⟨v.data ++ [x]⟩) := by
      simp [HL.Vec.push, hlt]
    have h2 : (HL.Vec.mk (N := N) (v.data ++ [x])).data.length + xs.length ≤ N := by
      simp only [List.length_append, List.length_singleton]
      simp only [List.length_cons] at h
      omega
    obtain ⟨hall, hdata⟩ := ih ⟨v.data ++ [x]⟩ h2
    rw [hlPushSeq_cons, hpush]
    refine ⟨?_, by simpa using hdata⟩
    intro r hr
    simp only [List.mem_cons] at hr
    rcases hr with rfl | hr
    · rfl
    · exact hall r hr

theorem alPushSeq_cons {T : Type} {N : Nat} (v : AL.Vec T N) (x : T)
    (xs : List T) :
    v.pushSeq (x :: xs)
      = ((v.push x).1 :: ((v.push x).2.pushSeq xs).1,
         ((v.push x).2.pushSeq xs).2) :=
  rfl

theorem alPushSeq_ok {T : Type} {N : Nat} :
    ∀ (vs : List T) (v : AL.Vec T N),
      (∀ r ∈ (v.pushSeq vs).1, r = .ok ()) ∧
        (v.pushSeq vs).2.data = v.data ++ vs := by
  intro vs
  induction vs with
  | nil => intro v; simp [AL.Vec.pushSeq]
  | cons x xs ih =>
    intro v
    obtain ⟨hall, hdata⟩ := ih ⟨v.data ++ [x]⟩
    rw [alPushSeq_cons]
    refine ⟨?_, by simpa using hdata⟩
    intro r hr
    simp only [List.mem_cons] at hr
    rcases hr with rfl | hr
    · rfl
    · exact hall r hr

/-- Claim C3. In fixed-capacity mode, for every capacity `N` and every sequence
of at most `N` pushes onto an initially empty `Vec<T, N>`, every push
succeeds and the vector afterwards holds exactly the pushed elements; and
when the sequence has length `N`, the `(N+1)`-th push fails, returns the
exact value passed in, leaves the vector unchanged, and its length remains
`N`. -/
theorem vec_push_fixed_capacity {T : Type} {N : Nat} (vs : List T)
    (hle : vs.length ≤ N) :
    (∀ r ∈ ((HL.Vec.new T N).pushSeq vs).1, r = .ok ()) ∧
    ((HL.Vec.new T N).pushSeq vs).2.data = vs ∧
    (vs.length = N → ∀ x : T,
      ((HL.Vec.new T N).pushSeq vs).2.push x
        = (.error x, ((HL.Vec.new T N).pushSeq vs).2) ∧
      (((HL.Vec.new T N).pushSeq vs).2.push x).2.data.length = N) := by
  obtain ⟨hall, hdata⟩ :=
    hlPushSeq_ok vs (HL.Vec.new T N) (by simpa [HL.Vec.new] using hle)
  have hdata2 : ((HL.Vec.new T N).pushSeq vs).2.data = vs := by
    simpa [HL.Vec.new] using hdata
  refine ⟨hall, hdata2, ?_⟩
  intro hfull x
  have hnot : ¬ ((HL.Vec.new T N).pushSeq vs).2.data.length < N := by
    rw [hdata2, hfull]; omega
  have hpush : ((HL.Vec.new T N).pushSeq vs).2.push x
      = (.error x, ((HL.Vec.new T N).pushSeq vs).2) := by
    simp [HL.Vec.push, hnot]
  exact ⟨hpush, by rw [hpush, hdata2, hfull]⟩

theorem vec_push_fixed_capacity_witness :
    (List.length [10, 20] ≤ 2) ∧
    ((∀ r ∈ ((HL.Vec.new Nat 2).pushSeq [10, 20]).1, r = .ok ()) ∧
     ((HL.Vec.new Nat 2).pushSeq [10, 20]).2.data = [10, 20] ∧
     (List.length [10, 20] = 2 → ∀ x : Nat,
       ((HL.Vec.new Nat 2).pushSeq [10, 20]).2.push x
         = (.error x, ((HL.Vec.new Nat 2).pushSeq [10, 20]).2) ∧
       (((HL.Vec.new Nat 2).pushSeq [10, 20]).2.push x).2.data.length = 2)) :=
  ⟨by decide, vec_push_fixed_capacity [10, 20] (by decide)⟩

/-- Claim C4. In heap-backed mode, for every capacity parameter `N` and every
`k`, pushing `N + k` elements onto an initially empty `Vec<T, N>` always
succeeds and the length equals `N + k` afterward; moreover `push`, `insert`,
`extend_from_slice` and `resize` never return the failure value: `N` has no
enforcement effect after construction. -/
theorem vec_push_heap_unbounded {T : Type} {N : Nat} (vs : List T) (k : Nat)
    (hlen : vs.length = N + k) :
    (∀ r ∈ ((AL.Vec.new T N).pushSeq vs).1, r = .ok ()) ∧
    ((AL.Vec.new T N).pushSeq vs).2.data = vs ∧
    ((AL.Vec.new T N).pushSeq vs).2.data.length = N + k ∧
    (∀ (v : AL.Vec T N) (x : T), (v.push x).1 = .ok ()) ∧
    (∀ (v : AL.Vec T N) (other : List T), (v.extend_from_slice other).1 = .ok ()) ∧
    (∀ (v : AL.Vec T N) (n : Nat) (x : T), (v.resize n x).1 = .ok ()) ∧
    (∀ (v : AL.Vec T N) (i : Nat) (x : T) (r : Except T Unit × AL.Vec T N),
      v.insert i x = some r → r.1 = .ok ()) := by
  obtain ⟨hall, hdata⟩ := alPushSeq_ok vs (AL.Vec.new T N)
  have hdata2 : ((AL.Vec.new T N).pushSeq vs).2.data = vs := by
    simpa [AL.Vec.new] using hdata
  refine ⟨hall, hdata2, by rw [hdata2, hlen], ?_, ?_, ?_, ?_⟩
  · intro v x; rfl
  · intro v other; rfl
  · intro v n x; unfold AL.Vec.resize; split <;> rfl
  · intro v i x r hr
    unfold AL.Vec.insert at hr
    split at hr
    · cases hr; rfl
    · cases hr

theorem vec_push_heap_unbounded_witness :
    (List.length [7, 8, 9] = 2 + 1) ∧
    ((∀ r ∈ ((AL.Vec.new Nat 2).pushSeq [7, 8, 9]).1, r = .ok ()) ∧
     ((AL.Vec.new Nat 2).pushSeq [7, 8, 9]).2.data = [7, 8, 9] ∧
     ((AL.Vec.new Nat 2).pushSeq [7, 8, 9]).2.data.length = 2 + 1 ∧
     (∀ (v : AL.Vec Nat 2) (x : Nat), (v.push x).1 = .ok ()) ∧
     (∀ (v : AL.Vec Nat 2) (other : List Nat),
       (v.extend_from_slice other).1 = .ok ()) ∧
     (∀ (v : AL.Vec Nat 2) (n : Nat) (x : Nat), (v.resize n x).1 = .ok ()) ∧
     (∀ (v : AL.Vec Nat 2) (i : Nat) (x : Nat)
        (r : Except Nat Unit × AL.Vec Nat 2),
       v.insert i x = some r → r.1 = .ok ())) :=
  ⟨by decide, vec_push_heap_unbounded [7, 8, 9] 1 (by decide)⟩

end Mayheap

namespace Mayheap

/-- Claim C7. Round-trip: for every slice `s`, `Vec::from_slice(s)` succeeds and
reading the contents back as a slice yields `s` — whenever `s.len() ≤ N` in
fixed-capacity mode, and unconditionally in heap-backed mode. -/
theorem vec_from_slice_round_trip {T : Type} {N : Nat} (s : List T) :
    (s.length ≤ N →
      ∃ v : HL.Vec T N, HL.Vec.from_slice T N s = .ok v ∧ v.as_slice = s) ∧
    (∃ w : AL.Vec T N, AL.Vec.from_slice T N s = .ok w ∧ w.as_slice = s) := by
  constructor
  · intro h
    refine ⟨⟨s⟩, ?_, rfl⟩
    simp [HL.Vec.from_slice, HL.Vec.extend_from_slice, HL.Vec.new, h]
  · exact ⟨⟨s⟩, rfl, rfl⟩

theorem vec_from_slice_round_trip_witness :
    (List.length [3, 1, 4] ≤ 5) ∧
    ((List.length [3, 1, 4] ≤ 5 →
       ∃ v : HL.Vec Nat 5, HL.Vec.from_slice Nat 5 [3, 1, 4] = .ok v ∧
         v.as_slice = [3, 1, 4]) ∧
     (∃ w : AL.Vec Nat 5, AL.Vec.from_slice Nat 5 [3, 1, 4] = .ok w ∧
       w.as_slice = [3, 1, 4])) :=
  ⟨by decide, vec_from_slice_round_trip [3, 1, 4]⟩

/-- Claim C9. The operations with no capacity implication produce identical
observable results in the fixed-capacity embedding and the heap-backed
embedding when applied to the same element sequence: the same return value
and the same resulting sequence for `Vec::pop`, `truncate`, `clear`,
`remove`, `retain`, `swap_remove` and indexing, the same slice (hence the
same iteration order and hash input), the same equality and ordering
results — and likewise for the `String` counterparts (`pop`, `truncate`,
`remove`, `clear`, equality, ordering, `as_str`). -/
theorem capacity_free_ops_mode_equivalence {T : Type} [DecidableEq T]
    {N M : Nat} (l l2 : List T) (n i : Nat) (f : T → Bool)
    (cmp : T → T → Ordering) (bs bs2 : List Nat) (k j : Nat) :
    ((HL.Vec.mk (N := N) l).pop.1 = (AL.Vec.mk (N := N) l).pop.1 ∧
     (HL.Vec.mk (N := N) l).pop.2.data = (AL.Vec.mk (N := N) l).pop.2.data) ∧
    ((HL.Vec.mk (N := N) l).truncate n).data
      = ((AL.Vec.mk (N := N) l).truncate n).data ∧
    (HL.Vec.mk (N := N) l).clear.data = (AL.Vec.mk (N := N) l).clear.data ∧
    ((HL.Vec.mk (N := N) l).remove i |>.map Prod.fst)
      = ((AL.Vec.mk (N := N) l).remove i |>.map Prod.fst) ∧
    ((HL.Vec.mk (N := N) l).remove i |>.map fun p => p.2.data)
      = ((AL.Vec.mk (N := N) l).remove i |>.map fun p => p.2.data) ∧
    ((HL.Vec.mk (N := N) l).retain f).data
      = ((AL.Vec.mk (N := N) l).retain f).data ∧
    ((HL.Vec.mk (N := N) l).swap_remove i |>.map Prod.fst)
      = ((AL.Vec.mk (N := N) l).swap_remove i |>.map Prod.fst) ∧
    ((HL.Vec.mk (N := N) l).swap_remove i |>.map fun p => p.2.data)
      = ((AL.Vec.mk (N := N) l).swap_remove i |>.map fun p => p.2.data) ∧
    (HL.Vec.mk (N := N) l).get i = (AL.Vec.mk (N := N) l).get i ∧
    (HL.Vec.mk (N := N) l).as_slice = (AL.Vec.mk (N := N) l).as_slice ∧
    (HL.Vec.mk (N := N) l).eq (HL.Vec.mk (N := M) l2)
      = (AL.Vec.mk (N := N) l).eq (AL.Vec.mk (N := M) l2) ∧
    lexCmp cmp (HL.Vec.mk (N := N) l).as_slice (HL.Vec.mk (N := M) l2).as_slice
      = lexCmp cmp (AL.Vec.mk (N := N) l).as_slice
          (AL.Vec.mk (N := M) l2).as_slice ∧
    ((HL.String.mk (N := N) bs).pop.1 = (AL.String.mk (N := N) bs).pop.1 ∧
     (HL.String.mk (N := N) bs).pop.2.bytes
       = (AL.String.mk (N := N) bs).pop.2.bytes) ∧
    ((HL.String.mk (N := N) bs).truncate k |>.map fun s => s.bytes)
      = ((AL.String.mk (N := N) bs).truncate k |>.map fun s => s.bytes) ∧
    ((HL.String.mk (N := N) bs).remove j |>.map Prod.fst)
      = ((AL.String.mk (N := N) bs).remove j |>.map Prod.fst) ∧
    ((HL.String.mk (N := N) bs).remove j |>.map fun p => p.2.bytes)
      = ((AL.String.mk (N := N) bs).remove j |>.map fun p => p.2.bytes) ∧
    (HL.String.mk (N := N) bs).clear.bytes
      = (AL.String.mk (N := N) bs).clear.bytes ∧
    (HL.String.mk (N := N) bs).eq (HL.String.mk (N := M) bs2)
      = (AL.String.mk (N := N) bs).eq (AL.String.mk (N := M) bs2) ∧
    (HL.String.mk (N := N) bs).cmp (HL.String.mk (N := M) bs2)
      = (AL.String.mk (N := N) bs).cmp (AL.String.mk (N := M) bs2) ∧
    (HL.String.mk (N := N) bs).as_str = (AL.String.mk (N := N) bs).as_str := by
  refine ⟨⟨rfl, rfl⟩, rfl, rfl, ?_, ?_, rfl, ?_, ?_, rfl, rfl, rfl, rfl,
    ⟨rfl, rfl⟩, ?_, ?_, ?_, rfl, rfl, rfl, rfl⟩
  · simp only [HL.Vec.remove, AL.Vec.remove, List.get?_eq_getElem?]
    rcases l[i]? with _ | x <;> rfl
  · simp only [HL.Vec.remove, AL.Vec.remove, List.get?_eq_getElem?]
    rcases l[i]? with _ | x <;> rfl
  · simp only [HL.Vec.swap_remove, AL.Vec.swap_remove, List.get?_eq_getElem?]
    rcases l[i]? with _ | x <;> rcases l.getLast? with _ | y <;> rfl
  · simp only [HL.Vec.swap_remove, AL.Vec.swap_remove, List.get?_eq_getElem?]
    rcases l[i]? with _ | x <;> rcases l.getLast? with _ | y <;> rfl
  · simp only [HL.String.truncate, AL.String.truncate, Option.map_map]
    rfl
  · simp only [HL.String.remove, AL.String.remove, Option.map_map]
    rfl
  · simp only [HL.String.remove, AL.String.remove, Option.map_map]
    rfl

/-- Claim C10. The unsafe unchecked `Vec` operations are total and delegate to
their checked counterparts in both build modes: `pop_unchecked` equals
`pop().unwrap()` — it returns the last element when the vector is non-empty
and panics (a defined abort, not undefined behavior) when it is empty — and
`swap_remove_unchecked` is exactly `swap_remove`, which panics on an
out-of-bounds index. -/
theorem unchecked_ops_delegate {T : Type} {N : Nat} (v : HL.Vec T N)
    (w : AL.Vec T N) (i : Nat) :
    (v.pop.1 = none → v.pop_unchecked = none) ∧
    (∀ x : T, v.pop.1 = some x → v.pop_unchecked = some (x, v.pop.2)) ∧
    (w.pop.1 = none → w.pop_unchecked = none) ∧
    (∀ x : T, w.pop.1 = some x → w.pop_unchecked = some (x, w.pop.2)) ∧
    v.swap_remove_unchecked i = v.swap_remove i ∧
    w.swap_remove_unchecked i = w.swap_remove i ∧
    (v.data.length ≤ i → v.swap_remove i = none) ∧
    (w.data.length ≤ i → w.swap_remove i = none) := by
  refine ⟨?_, ?_, ?_, ?_, rfl, rfl, ?_, ?_⟩
  · intro h
    unfold HL.Vec.pop_unchecked
    unfold HL.Vec.pop at h ⊢
    simp only at h
    rw [h]
  · intro x h
    unfold HL.Vec.pop_unchecked
    unfold HL.Vec.pop at h ⊢
    simp only at h
    rw [h]
  · intro h
    unfold AL.Vec.pop_unchecked
    unfold AL.Vec.pop at h ⊢
    simp only at h
    rw [h]
  · intro x h
    unfold AL.Vec.pop_unchecked
    unfold AL.Vec.pop at h ⊢
    simp only at h
    rw [h]
  · intro h
    have hg : v.data.get? i = none := List.get?_eq_none.mpr h
    unfold HL.Vec.swap_remove
    rw [hg]
  · intro h
    have hg : w.data.get? i = none := List.get?_eq_none.mpr h
    unfold AL.Vec.swap_remove
    rw [hg]

theorem unchecked_ops_delegate_witness :
    ((HL.Vec.mk (N := 3) ([] : List Nat)).pop.1 = none →
      (HL.Vec.mk (N := 3) ([] : List Nat)).pop_unchecked = none) ∧
    (∀ x : Nat, (HL.Vec.mk (N := 3) ([] : List Nat)).pop.1 = some x →
      (HL.Vec.mk (N := 3) ([] : List Nat)).pop_unchecked
        = some (x, (HL.Vec.mk (N := 3) ([] : List Nat)).pop.2)) ∧
    ((AL.Vec.mk (N := 3) ([] : List Nat)).pop.1 = none →
      (AL.Vec.mk (N := 3) ([] : List Nat)).pop_unchecked = none) ∧
    (∀ x : Nat, (AL.Vec.mk (N := 3) ([] : List Nat)).pop.1 = some x →
      (AL.Vec.mk (N := 3) ([] : List Nat)).pop_unchecked
        = some (x, (AL.Vec.mk (N := 3) ([] : List Nat)).pop.2)) ∧
    (HL.Vec.mk (N := 3) ([] : List Nat)).swap_remove_unchecked 7
      = (HL.Vec.mk (N := 3) ([] : List Nat)).swap_remove 7 ∧
    (AL.Vec.mk (N := 3) ([] : List Nat)).swap_remove_unchecked 7
      = (AL.Vec.mk (N := 3) ([] : List Nat)).swap_remove 7 ∧
    ((HL.Vec.mk (N := 3) ([] : List Nat)).data.length ≤ 7 →
      (HL.Vec.mk (N := 3) ([] : List Nat)).swap_remove 7 = none) ∧
    ((AL.Vec.mk (N := 3) ([] : List Nat)).data.length ≤ 7 →
      (AL.Vec.mk (N := 3) ([] : List Nat)).swap_remove 7 = none) :=
  unchecked_ops_delegate (HL.Vec.mk []) (AL.Vec.mk []) 7

end Mayheap

namespace Mayheap

theorem capacity_free_ops_mode_equivalence_witness :
    ((HL.Vec.mk (N := 2) [1, 2]).pop.1 = (AL.Vec.mk (N := 2) [1, 2]).pop.1 ∧
     (HL.Vec.mk (N := 2) [1, 2]).pop.2.data
       = (AL.Vec.mk (N := 2) [1, 2]).pop.2.data) ∧
    ((HL.Vec.mk (N := 2) [1, 2]).truncate 1).data
      = ((AL.Vec.mk (N := 2) [1, 2]).truncate 1).data ∧
    (HL.Vec.mk (N := 2) [1, 2]).clear.data
      = (AL.Vec.mk (N := 2) [1, 2]).clear.data ∧
    ((HL.Vec.mk (N := 2) [1, 2]).remove 0 |>.map Prod.fst)
      = ((AL.Vec.mk (N := 2) [1, 2]).remove 0 |>.map Prod.fst) ∧
    ((HL.Vec.mk (N := 2) [1, 2]).remove 0 |>.map fun p => p.2.data)
      = ((AL.Vec.mk (N := 2) [1, 2]).remove 0 |>.map fun p => p.2.data) ∧
    ((HL.Vec.mk (N := 2) [1, 2]).retain fun a => a % 2 = 0).data
      = ((AL.Vec.mk (N := 2) [1, 2]).retain fun a => a % 2 = 0).data ∧
    ((HL.Vec.mk (N := 2) [1, 2]).swap_remove 0 |>.map Prod.fst)
      = ((AL.Vec.mk (N := 2) [1, 2]).swap_remove 0 |>.map Prod.fst) ∧
    ((HL.Vec.mk (N := 2) [1, 2]).swap_remove 0 |>.map fun p => p.2.data)
      = ((AL.Vec.mk (N := 2) [1, 2]).swap_remove 0 |>.map fun p => p.2.data) ∧
    (HL.Vec.mk (N := 2) [1, 2]).get 0 = (AL.Vec.mk (N := 2) [1, 2]).get 0 ∧
    (HL.Vec.mk (N := 2) [1, 2]).as_slice = (AL.Vec.mk (N := 2) [1, 2]).as_slice ∧
    (HL.Vec.mk (N := 2) [1, 2]).eq (HL.Vec.mk (N := 3) [1])
      = (AL.Vec.mk (N := 2) [1, 2]).eq (AL.Vec.mk (N := 3) [1]) ∧
    lexCmp compare (HL.Vec.mk (N := 2) [1, 2]).as_slice
        (HL.Vec.mk (N := 3) [1]).as_slice
      = lexCmp compare (AL.Vec.mk (N := 2) [1, 2]).as_slice
          (AL.Vec.mk (N := 3) [1]).as_slice ∧
    ((HL.String.mk (N := 2) [0x61]).pop.1 = (AL.String.mk (N := 2) [0x61]).pop.1 ∧
     (HL.String.mk (N := 2) [0x61]).pop.2.bytes
       = (AL.String.mk (N := 2) [0x61]).pop.2.bytes) ∧
    ((HL.String.mk (N := 2) [0x61]).truncate 0 |>.map fun s => s.bytes)
      = ((AL.String.mk (N := 2) [0x61]).truncate 0 |>.map fun s => s.bytes) ∧
    ((HL.String.mk (N := 2) [0x61]).remove 0 |>.map Prod.fst)
      = ((AL.String.mk (N := 2) [0x61]).remove 0 |>.map Prod.fst) ∧
    ((HL.String.mk (N := 2) [0x61]).remove 0 |>.map fun p => p.2.bytes)
      = ((AL.String.mk (N := 2) [0x61]).remove 0 |>.map fun p => p.2.bytes) ∧
    (HL.String.mk (N := 2) [0x61]).clear.bytes
      = (AL.String.mk (N := 2) [0x61]).clear.bytes ∧
    (HL.String.mk (N := 2) [0x61]).eq (HL.String.mk (N := 3) [0x62])
      = (AL.String.mk (N := 2) [0x61]).eq (AL.String.mk (N := 3) [0x62]) ∧
    (HL.String.mk (N := 2) [0x61]).cmp (HL.String.mk (N := 3) [0x62])
      = (AL.String.mk (N := 2) [0x61]).cmp (AL.String.mk (N := 3) [0x62]) ∧
    (HL.String.mk (N := 2) [0x61]).as_str = (AL.String.mk (N := 2) [0x61]).as_str :=
  capacity_free_ops_mode_equivalence [1, 2] [1] 1 0 (fun a => a % 2 = 0)
    compare [0x61] [0x62] 0 0

/-- Claim C5, amended. In fixed-capacity mode, every mutating container
operation that would exceed the declared capacity returns — never aborts
with — a capacity-exceeded error and leaves the container unchanged, so no
data is lost.  `Vec::push` and `Vec::insert` carry the rejected value back
inside the error; `Vec::extend_from_slice` returns `Error::BufferOverflow`
and `String::push` / `String::push_str` return a unit error, which carry no
value (their arguments are borrowed or `Copy`, so the caller still holds
the data). -/
theorem capacity_exceeded_is_returned {T : Type} {N : Nat} (v : HL.Vec T N)
    (x y : T) (other : List T) (s : HL.String N) (str : List Nat) (c i : Nat)
    (hfull : v.data.length = N) (hi : i ≤ v.data.length)
    (hother : N < v.data.length + other.length)
    (hc : N < s.bytes.length + utf8Len c)
    (hstr : N < s.bytes.length + str.length) :
    v.push x = (.error x, v) ∧
    v.insert i y = some (.error y, v) ∧
    v.extend_from_slice other = (.error .BufferOverflow, v) ∧
    s.push c = (.error (), s) ∧
    s.push_str str = (.error (), s) := by
  have hnp : ¬ v.data.length < N := by omega
  have hne : ¬ v.data.length + other.length ≤ N := by omega
  have hnc : ¬ s.bytes.length + utf8Len c ≤ N := by omega
  have hns : ¬ s.bytes.length + str.length ≤ N := by omega
  refine ⟨?_, ?_, ?_, ?_, ?_⟩
  · simp [HL.Vec.push, hnp]
  · simp [HL.Vec.insert, hi, hnp]
  · simp [HL.Vec.extend_from_slice, hne]
  · simp [HL.String.push, hnc]
  · simp [HL.String.push_str, hns]

theorem capacity_exceeded_is_returned_witness :
    ((HL.Vec.mk (N := 1) [0]).data.length = 1 ∧
     0 ≤ (HL.Vec.mk (N := 1) [0]).data.length ∧
     1 < (HL.Vec.mk (N := 1) [0]).data.length + List.length [7] ∧
     1 < (HL.String.mk (N := 1) [0x61]).bytes.length + utf8Len 98 ∧
     1 < (HL.String.mk (N := 1) [0x61]).bytes.length + List.length [0x62]) ∧
    ((HL.Vec.mk (N := 1) [0]).push 5 = (.error 5, HL.Vec.mk (N := 1) [0]) ∧
     (HL.Vec.mk (N := 1) [0]).insert 0 6
       = some (.error 6, HL.Vec.mk (N := 1) [0]) ∧
     (HL.Vec.mk (N := 1) [0]).extend_from_slice [7]
       = (.error .BufferOverflow, HL.Vec.mk (N := 1) [0]) ∧
     (HL.String.mk (N := 1) [0x61]).push 98
       = (.error (), HL.String.mk (N := 1) [0x61]) ∧
     (HL.String.mk (N := 1) [0x61]).push_str [0x62]
       = (.error (), HL.String.mk (N := 1) [0x61])) :=
  ⟨⟨by decide, by decide, by decide, by decide, by decide⟩,
   capacity_exceeded_is_returned (HL.Vec.mk [0]) 5 6 [7] (HL.String.mk [0x61])
     [0x62] 98 0 (by decide) (by decide) (by decide) (by decide) (by decide)⟩

/-- Claim C5 counterexample. The claim as stated is false: when the capacity
would be exceeded, the error value returned by `Vec::extend_from_slice`,
`String::push` and `String::push_str` does not carry back the value that
could not be stored — two different rejected values yield the very same
error value, so the error cannot carry the value back. -/
theorem capacity_exceeded_no_carried_value :
    ((HL.String.mk (N := 1) [0x61]).push 98).1
      = ((HL.String.mk (N := 1) [0x61]).push 99).1 ∧
    (98 : Nat) ≠ 99 ∧
    ((HL.Vec.mk (N := 1) [0]).extend_from_slice [5]).1
      = ((HL.Vec.mk (N := 1) [0]).extend_from_slice [6]).1 ∧
    ([5] : List Nat) ≠ [6] ∧
    ((HL.String.mk (N := 1) [0x61]).push_str [0x62]).1
      = ((HL.String.mk (N := 1) [0x61]).push_str [0x63]).1 ∧
    ([0x62] : List Nat) ≠ [0x63] :=
  ⟨rfl, by decide, rfl, by decide, rfl, by decide⟩

/-- Claim C8. `String::from_utf8` applied to a byte vector starting with a lone
continuation byte `0x80` fails with the UTF-8 validity error reporting the
invalid position, in both modes; applied to the bytes of `"hello"` it
succeeds and the resulting string compares equal to `"hello"`, in both
modes. -/
theorem string_from_utf8_validity (N : Nat) (l : List Nat) :
    HL.String.from_utf8 (HL.Vec.mk (N := N) (0x80 :: l)) = .error ⟨0⟩ ∧
    AL.String.from_utf8 (AL.Vec.mk (N := N) (0x80 :: l)) = .error ⟨0⟩ ∧
    (∃ s : HL.String N,
      HL.String.from_utf8 (HL.Vec.mk (N := N) helloBytes) = .ok s ∧
      s.as_str = helloBytes ∧ s.eq (HL.String.mk (N := N) helloBytes) = true) ∧
    (∃ s : AL.String N,
      AL.String.from_utf8 (AL.Vec.mk (N := N) helloBytes) = .ok s ∧
      s.as_str = helloBytes ∧ s.eq (AL.String.mk (N := N) helloBytes) = true) := by
  exact ⟨rfl, rfl, ⟨⟨helloBytes⟩, rfl, rfl, by simp [HL.String.eq]⟩,
    ⟨⟨helloBytes⟩, rfl, rfl, by simp [AL.String.eq]⟩⟩

end Mayheap

namespace Mayheap.PoolInit

theorem setThread_same (ts : Nat → TState) (t : Nat) (st : TState) :
    setThread ts t st t = st := by
  simp [setThread]

theorem setThread_other (ts : Nat → TState) {u t : Nat} (st : TState)
    (h : u ≠ t) : setThread ts t st u = ts u := by
  simp [setThread, h]

theorem inv_start (N : Nat) : Inv N startSt := by
  refine ⟨by decide, fun _ => ⟨fun t => rfl, rfl⟩, fun h => absurd h (by decide),
    fun h => absurd h (by decide)⟩

theorem not_winner_elim {st : TState} {i : Nat} (h : NotWinner st)
    (hw : st = .winner i) : False := by
  rcases h with h | h | h <;> rw [hw] at h <;> cases h

theorem inv_step {N : Nat} {s s2 : St} (hI : Inv N s) (hS : Step N s s2) :
    Inv N s2 := by
  obtain ⟨hle, h0, h1, h2⟩ := hI
  have hwflag : ∀ t i, s.threads t = .winner i → s.flag = 1 := by
    intro t i hw
    have hcases : s.flag = 0 ∨ s.flag = 1 ∨ s.flag = 2 := by omega
    rcases hcases with hf | hf | hf
    · have := (h0 hf).1 t
      rw [hw] at this; cases this
    · exact hf
    · exact absurd hw (fun hw => not_winner_elim ((h2 hf).2 t) hw)
  cases hS with
  | casWin t hstart hflag =>
    obtain ⟨hall, hfree⟩ := h0 hflag
    simp only [Inv]
    refine ⟨by omega, fun h => absurd h (by omega), fun _ => ?_,
      fun h => absurd h (by omega)⟩
    refine ⟨t, 0, setThread_same _ _ _, by omega, by simp [hfree], ?_⟩
    intro u hu
    rw [setThread_other _ _ hu]
    exact Or.inl (hall u)
  | casLoseSpin t hstart hflag =>
    obtain ⟨t0, i0, hw0, hi0, hfl0, hoth0⟩ := h1 hflag
    have htt : t ≠ t0 := by
      intro heq
      rw [heq, hw0] at hstart; cases hstart
    simp only [Inv]
    refine ⟨by omega, fun h => absurd h (by omega), fun _ => ?_,
      fun h => absurd h (by omega)⟩
    refine ⟨t0, i0, ?_, hi0, hfl0, ?_⟩
    · rw [setThread_other _ _ (Ne.symm htt)]; exact hw0
    · intro u hu
      by_cases hut : u = t
      · subst hut; rw [setThread_same]; exact Or.inr (Or.inl rfl)
      · rw [setThread_other _ _ hut]; exact hoth0 u hu
  | casLoseDone t hstart hflag =>
    obtain ⟨hfl, hoth⟩ := h2 hflag
    simp only [Inv]
    refine ⟨by omega, fun h => absurd h (by omega),
      fun h => absurd h (by omega), fun _ => ⟨hfl, ?_⟩⟩
    intro u
    by_cases hut : u = t
    · subst hut; rw [setThread_same]; exact Or.inr (Or.inr rfl)
    · rw [setThread_other _ _ hut]; exact hoth u
  | register t i hw hiN =>
    have hflag := hwflag t i hw
    obtain ⟨t0, i0, hw0, hi0, hfl0, hoth0⟩ := h1 hflag
    have htt : t = t0 := by
      by_contra hne
      exact not_winner_elim (hoth0 t hne) hw
    subst htt
    rw [hw] at hw0
    cases hw0
    simp only [Inv]
    refine ⟨by omega, fun h => absurd h (by omega), fun _ => ?_,
      fun h => absurd h (by omega)⟩
    refine ⟨t, i + 1, setThread_same _ _ _, by omega, ?_, ?_⟩
    · rw [hfl0, List.range_succ]
    · intro u hu
      rw [setThread_other _ _ hu]
      exact hoth0 u hu
  | finish t hw =>
    have hflag := hwflag t N hw
    obtain ⟨t0, i0, hw0, hi0, hfl0, hoth0⟩ := h1 hflag
    have htt : t = t0 := by
      by_contra hne
      exact not_winner_elim (hoth0 t hne) hw
    subst htt
    rw [hw] at hw0
    cases hw0
    simp only [Inv]
    refine ⟨by omega, fun h => absurd h (by omega),
      fun h => absurd h (by omega), fun _ => ⟨hfl0, ?_⟩⟩
    intro u
    by_cases hut : u = t
    · subst hut; rw [setThread_same]; exact Or.inr (Or.inr rfl)
    · rw [setThread_other _ _ hut]; exact hoth0 u hut
  | spinDone t hspin hflag =>
    obtain ⟨hfl, hoth⟩ := h2 hflag
    simp only [Inv]
    refine ⟨by omega, fun h => absurd h (by omega),
      fun h => absurd h (by omega), fun _ => ⟨hfl, ?_⟩⟩
    intro u
    by_cases hut : u = t
    · subst hut; rw [setThread_same]; exact Or.inr (Or.inr rfl)
    · rw [setThread_other _ _ hut]; exact hoth u

theorem inv_reachable {N : Nat} {s : St} (h : Reachable N s) : Inv N s := by
  induction h with
  | start => exact inv_start N
  | step _ hs ih => exact inv_step ih hs

end Mayheap.PoolInit

namespace Mayheap

/-- Claim C1. For a heapless-mode pool of capacity `N`, the `init` state machine
over the tri-state atomic flag satisfies, in every reachable state: the flag
only ever holds the three declared values 0, 1, 2 (any other value is
unreachable, matching the `unreachable!` arm); the free list never contains a
block twice, and once the flag is `Initialized` it contains each of the `N`
blocks exactly once (`List.range N`), however many `init` calls were made; at
most one thread ever wins the CAS (winner uniqueness); the only flag
transitions are `Uninitialized → Initializing` (by the CAS winner) and
`Initializing → Initialized` (performed by that same winner after
registering all blocks); and `Initialized` is terminal. -/
theorem pool_init_state_machine {N : Nat} {s : PoolInit.St}
    (h : PoolInit.Reachable N s) :
    s.flag ≤ 2 ∧
    s.freeList.Nodup ∧
    (s.flag = 2 → s.freeList = List.range N) ∧
    (∀ t u i j, s.threads t = .winner i → s.threads u = .winner j →
      t = u ∧ i = j) ∧
    (∀ s2, PoolInit.Step N s s2 →
      s2.flag = s.flag ∨ (s.flag = 0 ∧ s2.flag = 1) ∨
        (s.flag = 1 ∧ s2.flag = 2 ∧
          ∃ t, s.threads t = .winner N ∧ s2.threads t = .done)) ∧
    (s.flag = 2 → ∀ s2, PoolInit.Step N s s2 →
      s2.flag = 2 ∧ s2.freeList = s.freeList) := by
  obtain ⟨hle, h0, h1, h2⟩ := PoolInit.inv_reachable h
  have hwflag : ∀ t i, s.threads t = .winner i → s.flag = 1 := by
    intro t i hw
    have hcases : s.flag = 0 ∨ s.flag = 1 ∨ s.flag = 2 := by omega
    rcases hcases with hf | hf | hf
    · have := (h0 hf).1 t
      rw [hw] at this; cases this
    · exact hf
    · exact absurd hw (fun hw => PoolInit.not_winner_elim ((h2 hf).2 t) hw)
  have huniq : ∀ t u i j, s.threads t = .winner i → s.threads u = .winner j →
      t = u ∧ i = j := by
    intro t u i j hti huj
    obtain ⟨t0, i0, hw0, _, _, hoth0⟩ := h1 (hwflag t i hti)
    have ht : t = t0 := by
      by_contra hne
      exact PoolInit.not_winner_elim (hoth0 t hne) hti
    have hu : u = t0 := by
      by_contra hne
      exact PoolInit.not_winner_elim (hoth0 u hne) huj
    subst ht; subst hu
    rw [hti] at huj
    cases huj
    exact ⟨rfl, rfl⟩
  refine ⟨hle, ?_, fun hf => (h2 hf).1, huniq, ?_, ?_⟩
  · have hcases : s.flag = 0 ∨ s.flag = 1 ∨ s.flag = 2 := by omega
    rcases hcases with hf | hf | hf
    · rw [(h0 hf).2]; exact List.nodup_nil
    · obtain ⟨t0, i0, _, _, hfl0, _⟩ := h1 hf
      rw [hfl0]; exact List.nodup_range i0
    · rw [(h2 hf).1]; exact List.nodup_range N
  · intro s2 hs
    cases hs with
    | casWin t hstart hflag => exact Or.inr (Or.inl ⟨hflag, rfl⟩)
    | casLoseSpin t hstart hflag => exact Or.inl rfl
    | casLoseDone t hstart hflag => exact Or.inl rfl
    | register t i hw hiN => exact Or.inl rfl
    | finish t hw =>
      exact Or.inr (Or.inr ⟨hwflag t N hw, rfl, t, hw,
        PoolInit.setThread_same _ _ _⟩)
    | spinDone t hspin hflag => exact Or.inl rfl
  · intro hf2 s2 hs
    cases hs with
    | casWin t hstart hflag => omega
    | casLoseSpin t hstart hflag => omega
    | casLoseDone t hstart hflag => exact ⟨hf2, rfl⟩
    | register t i hw hiN =>
      exact absurd hw (fun hw => PoolInit.not_winner_elim ((h2 hf2).2 t) hw)
    | finish t hw =>
      exact absurd hw (fun hw => PoolInit.not_winner_elim ((h2 hf2).2 t) hw)
    | spinDone t hspin hflag => exact ⟨hf2, rfl⟩

end Mayheap

namespace Mayheap

theorem pool_init_state_machine_witness :
    PoolInit.Reachable 1 initRunExample ∧
    (initRunExample.flag ≤ 2 ∧
     initRunExample.freeList.Nodup ∧
     (initRunExample.flag = 2 → initRunExample.freeList = List.range 1) ∧
     (∀ t u i j, initRunExample.threads t = .winner i →
        initRunExample.threads u = .winner j → t = u ∧ i = j) ∧
     (∀ s2, PoolInit.Step 1 initRunExample s2 →
        s2.flag = initRunExample.flag ∨
        (initRunExample.flag = 0 ∧ s2.flag = 1) ∨
        (initRunExample.flag = 1 ∧ s2.flag = 2 ∧
          ∃ t, initRunExample.threads t = .winner 1 ∧ s2.threads t = .done)) ∧
     (initRunExample.flag = 2 → ∀ s2, PoolInit.Step 1 initRunExample s2 →
        s2.flag = 2 ∧ s2.freeList = initRunExample.freeList)) := by
  have r1 := PoolInit.Reachable.step (PoolInit.Reachable.start (N := 1))
    (PoolInit.Step.casWin PoolInit.startSt 0 rfl rfl)
  have r2 := PoolInit.Reachable.step r1
    (PoolInit.Step.register _ 0 0 rfl (by decide))
  have r3 := PoolInit.Reachable.step r2 (PoolInit.Step.finish _ 0 rfl)
  have hreach : PoolInit.Reachable 1 initRunExample := r3
  exact ⟨hreach, pool_init_state_machine hreach⟩

end Mayheap

namespace Mayheap.HLPool

theorem perm_reachable {N : Nat} {s : St N} (h : Reachable N s) :
    (s.free ++ s.live).Perm (List.range N) := by
  induction h with
  | start => simp [initSt]
  | step hr hs ih =>
    cases hs with
    | allocOk b rest hfree =>
      refine List.Perm.trans ?_ ih
      rw [hfree]
      exact List.perm_middle
    | allocFail hfree => exact ih
    | drop b hb =>
      refine List.Perm.trans ?_ ih
      exact List.perm_middle.symm.trans
        (List.Perm.append_left _ (List.perm_cons_erase hb).symm)

end Mayheap.HLPool

namespace Mayheap

/-- Claim C6, amended. In fixed-capacity (heapless) mode the handle discipline
holds: in every reachable pool state at most one handle refers to any given
block (the live blocks are pairwise distinct), at most `N` handles exist
concurrently for a pool of capacity `N`, every live block is one of the `N`
pool blocks, and dropping a handle returns its block to the pool's free
stack, where the very next allocation reuses it.  (In heap-backed mode the
`Clone` derive on `Box` makes handles duplicable and the capacity is not
enforced — see the counterexample.) -/
theorem pool_handle_discipline {N : Nat} {s : HLPool.St N}
    (h : HLPool.Reachable N s) :
    s.live.Nodup ∧
    s.live.length ≤ N ∧
    (∀ b ∈ s.live, b < N) ∧
    (∀ b ∈ s.live, ∀ (T : Type) (v : T),
      HLPool.alloc (HLPool.dropBox s b) v
        = (.ok ⟨b, v⟩, ⟨s.free, b :: s.live.erase b⟩)) := by
  have hP := HLPool.perm_reachable h
  have hnd : (s.free ++ s.live).Nodup :=
    hP.nodup_iff.mpr (List.nodup_range N)
  have hlen : s.free.length + s.live.length = N := by
    have := hP.length_eq
    simpa [List.length_append, List.length_range] using this
  refine ⟨hnd.of_append_right, by omega, ?_, ?_⟩
  · intro b hb
    have : b ∈ List.range N :=
      hP.mem_iff.mp (List.mem_append_right s.free hb)
    exact List.mem_range.mp this
  · intro b hb T v
    rfl

theorem pool_handle_discipline_witness :
    HLPool.Reachable 2 (HLPool.St.mk [1] [0]) ∧
    ((HLPool.St.mk (N := 2) [1] [0]).live.Nodup ∧
     (HLPool.St.mk (N := 2) [1] [0]).live.length ≤ 2 ∧
     (∀ b ∈ (HLPool.St.mk (N := 2) [1] [0]).live, b < 2) ∧
     (∀ b ∈ (HLPool.St.mk (N := 2) [1] [0]).live, ∀ (T : Type) (v : T),
       HLPool.alloc (HLPool.dropBox (HLPool.St.mk (N := 2) [1] [0]) b) v
         = (.ok ⟨b, v⟩, ⟨(HLPool.St.mk (N := 2) [1] [0]).free,
             b :: (HLPool.St.mk (N := 2) [1] [0]).live.erase b⟩))) := by
  have r1 := HLPool.Reachable.step (HLPool.Reachable.start (N := 2))
    (HLPool.Step.allocOk (HLPool.initSt 2) 0 [1] rfl)
  have hreach : HLPool.Reachable 2 (HLPool.St.mk [1] [0]) := r1
  exact ⟨hreach, pool_handle_discipline hreach⟩

/-- Claim C6 counterexample. The claim as stated quantifies over every pool and
fails in heap-backed (alloc) mode: for a pool declared with capacity 2, three
allocations all succeed and three handles are live at once (3 > 2), and the
derived `Clone` on the handle type duplicates a handle (same contained value
in a fresh allocation), so a handle can be cloned, not only moved. -/
theorem pool_handle_counterexample :
    (ALPool.alloc (ALPool.declare 2) (42 : Nat)).1 = .ok ⟨0, 42⟩ ∧
    (ALPool.alloc (ALPool.alloc (ALPool.declare 2) (42 : Nat)).2 43).1
      = .ok ⟨1, 43⟩ ∧
    (ALPool.alloc
      (ALPool.alloc (ALPool.alloc (ALPool.declare 2) (42 : Nat)).2 43).2
      44).1 = .ok ⟨2, 44⟩ ∧
    (ALPool.alloc
      (ALPool.alloc (ALPool.alloc (ALPool.declare 2) (42 : Nat)).2 43).2
      44).2.live.length = 3 ∧
    (ALPool.alloc
      (ALPool.alloc (ALPool.alloc (ALPool.declare 2) (42 : Nat)).2 43).2
      44).2.capacity = 2 ∧
    3 > 2 ∧
    (ALPool.cloneBox
      (ALPool.alloc
        (ALPool.alloc (ALPool.alloc (ALPool.declare 2) (42 : Nat)).2 43).2
        44).2 ⟨0, 42⟩).1.value = 42 :=
  ⟨rfl, rfl, rfl, rfl, rfl, by omega, rfl⟩

/-- Claim C2. For every pool and every value `v`: in fixed-capacity (heapless)
mode `alloc(v)` either returns an owning handle containing exactly `v` (the
head of the free-block stack) or, when no free block remains, fails by
returning the original `v` back to the caller with the pool unchanged —
never silently dropping it; in heap-backed (alloc) mode `alloc(v)` always
succeeds regardless of the declared capacity, storing exactly `v` in a fresh
heap allocation per call (successive allocations yield distinct
addresses). -/
theorem pool_alloc_contract {T : Type} {N : Nat} (s : HLPool.St N)
    (a : ALPool.St) (v w : T) :
    (s.free = [] → HLPool.alloc s v = (.error v, s)) ∧
    (∀ b rest, s.free = b :: rest →
      HLPool.alloc s v = (.ok ⟨b, v⟩, ⟨rest, b :: s.live⟩)) ∧
    (ALPool.alloc a v).1 = .ok ⟨a.next, v⟩ ∧
    (ALPool.alloc a v).2.capacity = a.capacity ∧
    (ALPool.alloc (ALPool.alloc a v).2 w).1 = .ok ⟨a.next + 1, w⟩ ∧
    a.next ≠ a.next + 1 := by
  refine ⟨?_, ?_, rfl, rfl, rfl, by omega⟩
  · intro hf
    unfold HLPool.alloc
    rw [hf]
  · intro b rest hf
    unfold HLPool.alloc
    rw [hf]

theorem pool_alloc_contract_witness :
    ((HLPool.St.mk (N := 1) [0] []).free = [] →
      HLPool.alloc (HLPool.St.mk (N := 1) [0] []) (42 : Nat)
        = (.error 42, HLPool.St.mk [0] [])) ∧
    (∀ b rest, (HLPool.St.mk (N := 1) [0] []).free = b :: rest →
      HLPool.alloc (HLPool.St.mk (N := 1) [0] []) (42 : Nat)
        = (.ok ⟨b, 42⟩, ⟨rest, b :: (HLPool.St.mk (N := 1) [0] []).live⟩)) ∧
    (ALPool.alloc (ALPool.declare 2) (42 : Nat)).1
      = .ok ⟨(ALPool.declare 2).next, 42⟩ ∧
    (ALPool.alloc (ALPool.declare 2) (42 : Nat)).2.capacity
      = (ALPool.declare 2).capacity ∧
    (ALPool.alloc (ALPool.alloc (ALPool.declare 2) (42 : Nat)).2 43).1
      = .ok ⟨(ALPool.declare 2).next + 1, 43⟩ ∧
    (ALPool.declare 2).next ≠ (ALPool.declare 2).next + 1 :=
  pool_alloc_contract (HLPool.St.mk [0] []) (ALPool.declare 2) 42 43

end Mayheap

namespace Mayheap

theorem string_from_utf8_validity_witness :
    HL.String.from_utf8 (HL.Vec.mk (N := 8) (0x80 :: [0x61])) = .error ⟨0⟩ ∧
    AL.String.from_utf8 (AL.Vec.mk (N := 8) (0x80 :: [0x61])) = .error ⟨0⟩ ∧
    (∃ s : HL.String 8,
      HL.String.from_utf8 (HL.Vec.mk (N := 8) helloBytes) = .ok s ∧
      s.as_str = helloBytes ∧
      s.eq (HL.String.mk (N := 8) helloBytes) = true) ∧
    (∃ s : AL.String 8,
      AL.String.from_utf8 (AL.Vec.mk (N := 8) helloBytes) = .ok s ∧
      s.as_str = helloBytes ∧
      s.eq (AL.String.mk (N := 8) helloBytes) = true) :=
  string_from_utf8_validity 8 [0x61]

end Mayheap
